import Mathlib

/-!
Verification of the consumer-complaints ETL pipeline
(`src/load/load_data.py`, `src/extract/download_data.py`).

The embedding models:
* the batch reader `read_data_in_batches` (chunking, the 18-entry column
  rename mapping, the Yes/No boolean coercion of `timely_response`);
* the database layer: table states, `drop_table_if_exists`,
  `create_table_if_not_exists`, `insert_data_to_sql` (append with the
  primary-key constraint on `complaint_id` that both tables carry),
  `upsert_data_from_temp_table` (the `DISTINCT ON` + `ON CONFLICT DO
  UPDATE` statement) and the orchestrator `load_all_data_to_database`
  as a straight-line step sequence with a fault oracle for storage
  failures;
* the downloader `download_dataset` over an abstract filesystem and an
  abstract fetch backend.
-/

namespace ETL

/-- A cell of a dataframe: a string value, a boolean (after the
`timely_response` coercion), or null/NaN. -/
inductive Cell where
  | str : String → Cell
  | bool : Bool → Cell
  | null : Cell
deriving DecidableEq, Repr

/-- A CSV row as a dataframe row: an association of column headers to
cell values. -/
abbrev CsvRow := List (String × Cell)

/-- The static 18-entry `column_mapping` dictionary of
`read_data_in_batches`, in source order. -/
def column_mapping : List (String × String) :=
  [("Date received", "date_received"),
   ("Product", "product"),
   ("Sub-product", "sub_product"),
   ("Issue", "issue"),
   ("Sub-issue", "sub_issue"),
   ("Consumer complaint narrative", "consumer_complaint_narrative"),
   ("Company public response", "company_public_response"),
   ("Company", "company"),
   ("State", "state"),
   ("ZIP code", "zip_code"),
   ("Tags", "tags"),
   ("Consumer consent provided?", "consumer_consent_provided"),
   ("Submitted via", "submitted_via"),
   ("Date sent to company", "date_sent_to_company"),
   ("Company response to consumer", "company_response_to_consumer"),
   ("Timely response?", "timely_response"),
   ("Consumer disputed?", "consumer_disputed"),
   ("Complaint ID", "complaint_id")]

/-- `DataFrame.rename(columns=column_mapping)`: a header in the mapping
is replaced by its target; any other header is passed through unchanged. -/
def renameHeader (h : String) : String :=
  match column_mapping.find? (fun p => p.1 == h) with
  | some p => p.2
  | none => h

/-- `Series.map({"Yes": True, "No": False})`: the literal `"Yes"` maps to
`True`, the literal `"No"` to `False`, and every other value (empty/NaN
included) to NaN.  The pandas `map` never raises. -/
def coerceTimely (c : Cell) : Cell :=
  if c = .str "Yes" then .bool true
  else if c = .str "No" then .bool false
  else .null

/-- The per-row effect of the two column transformations applied to each
chunk: headers renamed, and the cell of the (renamed) `timely_response`
column coerced. -/
def processRow (r : CsvRow) : CsvRow :=
  r.map (fun hv =>
    let h := renameHeader hv.1
    (h, if h = "timely_response" then coerceTimely hv.2 else hv.2))

/-- `pd.read_csv(file_path, chunksize=batch_size)`: the file's rows split
into consecutive chunks of `bs` rows, the last chunk possibly shorter.
(`chunksize=0` is invalid in pandas; the guard keeps the model total.) -/
def readChunks {α : Type} (bs : Nat) (rows : List α) : List (List α) :=
  if h : bs = 0 ∨ rows.isEmpty then []
  else rows.take bs :: readChunks bs (rows.drop bs)
termination_by rows.length
decreasing_by
  simp only [List.length_drop]
  rcases Nat.eq_zero_or_pos bs with hb | hb
  · exact absurd (Or.inl hb) h
  · have hr : rows.isEmpty = false := by
      cases he : rows.isEmpty
      · rfl
      · exact absurd (Or.inr (by simp [he])) h
    have : 0 < rows.length := by
      cases rows with
      | nil => simp at hr
      | cons a l => simp
    omega

/-- `read_data_in_batches(file_path, batch_size)`: the generator yielding
each chunk with columns renamed and `timely_response` coerced. -/
def read_data_in_batches (bs : Nat) (rows : List CsvRow) : List (List CsvRow) :=
  (readChunks bs rows).map (List.map processRow)

/-- A row of the 18-column table schema of `create_table_if_not_exists`:
seventeen nullable data columns and the integer primary-key column
`complaint_id`. -/
@[ext]
structure Row where
  date_received : Cell
  product : Cell
  sub_product : Cell
  issue : Cell
  sub_issue : Cell
  consumer_complaint_narrative : Cell
  company_public_response : Cell
  company : Cell
  state : Cell
  zip_code : Cell
  tags : Cell
  consumer_consent_provided : Cell
  submitted_via : Cell
  date_sent_to_company : Cell
  company_response_to_consumer : Cell
  timely_response : Cell
  consumer_disputed : Cell
  complaint_id : Int
deriving DecidableEq, Repr

/-- The complaint ids of a table's rows, in row order. -/
def idsOf (rows : List Row) : List Int :=
  rows.map Row.complaint_id

/-- The rows of a table carrying a given complaint id (the result set of
`SELECT * FROM t WHERE complaint_id = c`), in row order. -/
def rowsWithId (c : Int) (rows : List Row) : List Row :=
  rows.filter (fun m => m.complaint_id = c)

/-- A concrete complaint record with a given product value and complaint
id, all other columns null: used to instantiate theorems. -/
def mkRow (p : Cell) (c : Int) : Row where
  date_received := .null
  product := p
  sub_product := .null
  issue := .null
  sub_issue := .null
  consumer_complaint_narrative := .null
  company_public_response := .null
  company := .null
  state := .null
  zip_code := .null
  tags := .null
  consumer_consent_provided := .null
  submitted_via := .null
  date_sent_to_company := .null
  company_response_to_consumer := .null
  timely_response := .null
  consumer_disputed := .null
  complaint_id := c

/-- `SELECT DISTINCT ON (complaint_id) * FROM temp`: one row kept per
complaint id.  PostgreSQL leaves the choice unspecified without an
`ORDER BY`; the model keeps the first occurrence.  (The staging table's
primary key makes duplicates impossible in every reachable state, where
the choice is vacuous.) -/
def distinctOn : List Row → List Row
  | [] => []
  | r :: rs => r :: distinctOn (rs.filter (fun x => x.complaint_id ≠ r.complaint_id))
termination_by rows => rows.length
decreasing_by
  have := List.length_filter_le (fun x => decide (x.complaint_id ≠ r.complaint_id)) rs
  simpa [Nat.lt_succ_iff] using this

/-- The `DO UPDATE SET` clause: the seventeen non-key columns are set to
the staged (`EXCLUDED`) values; `complaint_id` is not in the clause and
keeps the existing row's value. -/
def updateNonKey (old new : Row) : Row where
  date_received := new.date_received
  product := new.product
  sub_product := new.sub_product
  issue := new.issue
  sub_issue := new.sub_issue
  consumer_complaint_narrative := new.consumer_complaint_narrative
  company_public_response := new.company_public_response
  company := new.company
  state := new.state
  zip_code := new.zip_code
  tags := new.tags
  consumer_consent_provided := new.consumer_consent_provided
  submitted_via := new.submitted_via
  date_sent_to_company := new.date_sent_to_company
  company_response_to_consumer := new.company_response_to_consumer
  timely_response := new.timely_response
  consumer_disputed := new.consumer_disputed
  complaint_id := old.complaint_id

/-- `INSERT ... ON CONFLICT (complaint_id) DO UPDATE` for one source row:
if the target holds a row with the same complaint id, its non-key
columns are overwritten; otherwise the row is inserted. -/
def upsertRow (main : List Row) (r : Row) : List Row :=
  if main.any (fun m => m.complaint_id == r.complaint_id) then
    main.map (fun m =>
      if m.complaint_id = r.complaint_id then updateNonKey m r else m)
  else main ++ [r]

/-- The effect on the main table of the single upsert statement of
`upsert_data_from_temp_table`: the deduplicated staging rows merged in
order into the main table. -/
def upsertRows (main temp : List Row) : List Row :=
  (distinctOn temp).foldl upsertRow main

/-- The database state seen by one load invocation: the main table and
the staging (temporary) table, each either absent (`none`) or present
with its rows in insertion order. -/
structure DBState where
  main : Option (List Row)
  temp : Option (List Row)
deriving DecidableEq, Repr

/-- Storage errors (`SQLAlchemyError` wrapped into `RuntimeError`
messages). -/
abbrev Err := String

/-- The primitive steps `load_all_data_to_database` issues, in the order
its body names them. -/
inductive Step where
  | dropTemp : Step
  | createMain : Step
  | createTemp : Step
  | insertBatch : List Row → Step
  | upsertStep : Step
deriving DecidableEq, Repr

/-- One batch append can violate the staging table's primary key: it
succeeds exactly when the batch's ids are pairwise distinct and fresh
for the table.  (`pandas.to_sql` runs the append in one transaction, so
a violation leaves the table unchanged.) -/
def pkOk (t b : List Row) : Prop :=
  (idsOf b).Nodup ∧ ∀ c ∈ idsOf b, c ∉ idsOf t

instance (t b : List Row) : Decidable (pkOk t b) := by
  unfold pkOk
  infer_instance

/-- The state transition of each step, from the corresponding function in
`load_data.py`:
* `drop_table_if_exists` on the staging table (`checkfirst=True`);
* `create_table_if_not_exists` on either table (`checkfirst=True`);
* `insert_data_to_sql` appending a batch to the staging table, failing
  on a primary-key violation;
* `upsert_data_from_temp_table`, a single atomic SQL statement. -/
def execStep : Step → DBState → Except Err DBState
  | .dropTemp, s => .ok { s with temp := none }
  | .createMain, s => .ok { s with main := some (s.main.getD []) }
  | .createTemp, s => .ok { s with temp := some (s.temp.getD []) }
  | .insertBatch b, s =>
    match s.temp with
    | none => .error "relation does not exist"
    | some t =>
      if pkOk t b then .ok { s with temp := some (t ++ b) }
      else .error "duplicate key value violates unique constraint"
  | .upsertStep, s =>
    match s.main, s.temp with
    | some m, some t => .ok { s with main := some (upsertRows m t) }
    | _, _ => .error "relation does not exist"

/-- Runs a step list in order against a fault oracle giving the storage
failures (`SQLAlchemyError`) injected by the engine, indexed by step
position.  The first failure — injected or intrinsic — stops execution:
the error propagates and the state reached so far is kept (no step is
rolled back). -/
def runSteps (fault : Nat → Option Err) : Nat → List Step → DBState → DBState × Option Err
  | _, [], s => (s, none)
  | i, st :: rest, s =>
    match fault i with
    | some e => (s, some e)
    | none =>
      match execStep st s with
      | .error e => (s, some e)
      | .ok s2 => runSteps fault (i + 1) rest s2

/-- The straight-line body of `load_all_data_to_database`: drop staging,
ensure main, ensure staging, append each batch in file order, upsert,
drop staging. -/
def loadSteps (batches : List (List Row)) : List Step :=
  [Step.dropTemp, Step.createMain, Step.createTemp]
    ++ batches.map Step.insertBatch
    ++ [Step.upsertStep, Step.dropTemp]

/-- `load_all_data_to_database(data_path, ..., batch_size)`: the file's
rows are read in batches of `bs` and the step sequence is executed
against the fault oracle. -/
def load_all_data_to_database (fault : Nat → Option Err) (file : List Row)
    (bs : Nat) (s : DBState) : DBState × Option Err :=
  runSteps fault 0 (loadSteps (readChunks bs file)) s

/-- The oracle of a run during which the storage engine injects no
failure. -/
def noFault : Nat → Option Err := fun _ => none

/-- Executes a step list demanding success of every step: used to name
the state reached by a completed prefix of the sequence. -/
def execOkN (fault : Nat → Option Err) : Nat → List Step → DBState → Option DBState
  | _, [], s => some s
  | i, x :: xs, s =>
    match fault i with
    | some _ => none
    | none =>
      match execStep x s with
      | .error _ => none
      | .ok s2 => execOkN fault (i + 1) xs s2

/-- Whether step `x` at position `i` fails from state `s`, and with which
error: an injected fault takes precedence, otherwise an intrinsic
failure of the step itself. -/
def stepFailure (fault : Nat → Option Err) (i : Nat) (x : Step) (s : DBState) : Option Err :=
  match fault i with
  | some e => some e
  | none =>
    match execStep x s with
    | .error e => some e
    | .ok _ => none

/-- The filesystem as `download_data.py` observes it: the set of existing
file paths and of existing directory paths. -/
structure FS where
  files : List String
  dirs : List String
deriving DecidableEq, Repr

/-- `os.path.join(download_path, data_file_name)`. -/
def joinPath (dir file : String) : String := dir ++ "/" ++ file

/-- `download_dataset(kaggle_dataset, download_path, data_file_name)` over
an abstract fetch backend (`api.dataset_download_files` with
`unzip=True`, modelled as an arbitrary filesystem effect).  Returns the
filesystem after the call, the result (the data path, or the
`FileNotFoundError`), and whether the fetch path was invoked. -/
def download_dataset (fetch : FS → FS) (download_path data_file_name : String)
    (fs : FS) : FS × Except String String × Bool :=
  let data_path := joinPath download_path data_file_name
  let fs1 := if download_path ∈ fs.dirs then fs
             else { fs with dirs := download_path :: fs.dirs }
  if data_path ∈ fs1.files then
    (fs1, .ok data_path, false)
  else
    let fs2 := fetch fs1
    if data_path ∈ fs2.files then (fs2, .ok data_path, true)
    else (fs2, .error "Dataset download failed.", true)

/-! ### Batch reader lemmas -/

lemma readChunks_nil {α : Type} (bs : Nat) : readChunks bs ([] : List α) = [] := by
  unfold readChunks
  simp

lemma readChunks_cons {α : Type} (bs : Nat) (hb : 1 ≤ bs) (a : α) (l : List α) :
    readChunks bs (a :: l) = (a :: l).take bs :: readChunks bs ((a :: l).drop bs) := by
  rw [readChunks]
  have : ¬ (bs = 0 ∨ (a :: l).isEmpty = true) := by
    intro h
    rcases h with h | h
    · omega
    · simp at h
  rw [dif_neg this]

lemma readChunks_flatten {α : Type} (bs : Nat) (rows : List α) (hb : 1 ≤ bs) :
    (readChunks bs rows).flatten = rows := by
  induction rows using readChunks.induct bs with
  | case1 x h =>
    rcases h with h | h
    · omega
    · have : x = [] := by
        cases x with
        | nil => rfl
        | cons a l => simp at h
      subst this
      simp [readChunks_nil]
  | case2 x h ih =>
    cases x with
    | nil => simp at h
    | cons a l =>
      rw [readChunks_cons bs hb a l]
      simp only [List.flatten_cons]
      rw [ih, List.take_append_drop]

lemma readChunks_length {α : Type} (bs : Nat) (rows : List α) (hb : 1 ≤ bs) :
    (readChunks bs rows).length = (rows.length + bs - 1) / bs := by
  induction rows using readChunks.induct bs with
  | case1 x h =>
    rcases h with h | h
    · omega
    · have hrows : x = [] := by
        cases x with
        | nil => rfl
        | cons a l => simp at h
      subst hrows
      rw [readChunks_nil]
      simp only [List.length_nil]
      rw [Nat.div_eq_of_lt (by omega)]
  | case2 x h ih =>
    cases x with
    | nil => simp at h
    | cons a l =>
      rw [readChunks_cons bs hb a l]
      simp only [List.length_cons, List.length_drop] at ih ⊢
      rw [ih]
      rcases le_or_lt bs (l.length + 1) with hc | hc
      · have e2 : l.length + 1 + bs - 1 = l.length + bs := by omega
        rw [e2, Nat.add_div_right _ (by omega : 0 < bs)]
        have e4 : l.length + 1 - bs + bs - 1 = l.length := by omega
        rw [e4]
      · have e1 : l.length + 1 - bs = 0 := by omega
        rw [e1]
        simp only [Nat.zero_add]
        rw [Nat.div_eq_of_lt (by omega : bs - 1 < bs)]
        have e2 : l.length + 1 + bs - 1 = l.length + bs := by omega
        rw [e2, Nat.add_div_right _ (by omega : 0 < bs)]
        rw [Nat.div_eq_of_lt (by omega : l.length < bs)]

/-! ### Claim theorems: batch reader -/

/-- C4: for every batch size in `[1, 1000]` and every source file of `N`
rows, `read_data_in_batches` yields exactly `⌈N / batch_size⌉` batches,
the batch row counts sum to `N`, and concatenating the batches in
yielded order reproduces the file's rows (each processed by the column
rename and boolean coercion) in file order. -/
theorem read_data_in_batches_shape (rows : List CsvRow) (bs : Nat)
    (h1 : 1 ≤ bs) (h2 : bs ≤ 1000) :
    (read_data_in_batches bs rows).length = (rows.length + bs - 1) / bs ∧
    ((read_data_in_batches bs rows).map List.length).sum = rows.length ∧
    (read_data_in_batches bs rows).flatten = rows.map processRow := by
  have hflat : (read_data_in_batches bs rows).flatten = rows.map processRow := by
    unfold read_data_in_batches
    rw [← List.map_flatten, readChunks_flatten bs rows h1]
  refine ⟨?_, ?_, hflat⟩
  · unfold read_data_in_batches
    rw [List.length_map, readChunks_length bs rows h1]
  · rw [← List.length_flatten, hflat, List.length_map]

/-- Witness for C4 at a concrete two-row file and batch size 1. -/
theorem read_data_in_batches_shape_witness :
    (read_data_in_batches 1 [[("Product", Cell.str "A")], [("Product", Cell.str "B")]]).length
        = (2 + 1 - 1) / 1 ∧
    ((read_data_in_batches 1 [[("Product", Cell.str "A")], [("Product", Cell.str "B")]]).map
        List.length).sum = 2 ∧
    (read_data_in_batches 1 [[("Product", Cell.str "A")], [("Product", Cell.str "B")]]).flatten
        = [[("Product", Cell.str "A")], [("Product", Cell.str "B")]].map processRow :=
  read_data_in_batches_shape _ 1 (by decide) (by decide)

/-- C7: the timely-response coercion maps the literal `"Yes"` to true and
`"No"` to false, and every other cell value (empty/NaN included) to
null; being a total function of the cell value, it never raises. -/
theorem coerceTimely_exact :
    coerceTimely (Cell.str "Yes") = Cell.bool true ∧
    coerceTimely (Cell.str "No") = Cell.bool false ∧
    ∀ c : Cell, c ≠ Cell.str "Yes" → c ≠ Cell.str "No" → coerceTimely c = Cell.null := by
  refine ⟨by decide, by decide, ?_⟩
  intro c hy hn
  unfold coerceTimely
  rw [if_neg hy, if_neg hn]

/-- Witness for C7 at the empty-string cell. -/
theorem coerceTimely_exact_witness :
    coerceTimely (Cell.str "") = Cell.null :=
  coerceTimely_exact.2.2 _ (by decide) (by decide)

/-- C8: the rename mapping sends each of the 18 documented source headers
to its documented normalized name, and passes any other header through
unchanged. -/
theorem renameHeader_total_passthrough :
    (renameHeader "Date received" = "date_received" ∧
     renameHeader "Product" = "product" ∧
     renameHeader "Sub-product" = "sub_product" ∧
     renameHeader "Issue" = "issue" ∧
     renameHeader "Sub-issue" = "sub_issue" ∧
     renameHeader "Consumer complaint narrative" = "consumer_complaint_narrative" ∧
     renameHeader "Company public response" = "company_public_response" ∧
     renameHeader "Company" = "company" ∧
     renameHeader "State" = "state" ∧
     renameHeader "ZIP code" = "zip_code" ∧
     renameHeader "Tags" = "tags" ∧
     renameHeader "Consumer consent provided?" = "consumer_consent_provided" ∧
     renameHeader "Submitted via" = "submitted_via" ∧
     renameHeader "Date sent to company" = "date_sent_to_company" ∧
     renameHeader "Company response to consumer" = "company_response_to_consumer" ∧
     renameHeader "Timely response?" = "timely_response" ∧
     renameHeader "Consumer disputed?" = "consumer_disputed" ∧
     renameHeader "Complaint ID" = "complaint_id") ∧
    ∀ h : String, h ∉ column_mapping.map Prod.fst → renameHeader h = h := by
  constructor
  · decide
  · intro h hmem
    unfold renameHeader
    cases hf : column_mapping.find? (fun p => p.1 == h) with
    | none => rfl
    | some q =>
      exfalso
      have hq := List.find?_some hf
      have hqm : q ∈ column_mapping := List.mem_of_find?_eq_some hf
      apply hmem
      rw [List.mem_map]
      exact ⟨q, hqm, by simpa using hq⟩

/-- Witness for C8 at an unknown header. -/
theorem renameHeader_total_passthrough_witness :
    renameHeader "Unknown header" = "Unknown header" :=
  renameHeader_total_passthrough.2 _ (by decide)

/-! ### Upsert lemmas -/

lemma updateNonKey_complaint_id (old new : Row) :
    (updateNonKey old new).complaint_id = old.complaint_id := rfl

lemma updateNonKey_self (m r : Row) (h : m.complaint_id = r.complaint_id) :
    updateNonKey m r = r := by
  ext <;> simp [updateNonKey, h]

lemma idsOf_append (l1 l2 : List Row) : idsOf (l1 ++ l2) = idsOf l1 ++ idsOf l2 := by
  simp [idsOf]

lemma idsOf_cons (a : Row) (l : List Row) :
    idsOf (a :: l) = a.complaint_id :: idsOf l := rfl

lemma mem_idsOf {c : Int} {l : List Row} :
    c ∈ idsOf l ↔ ∃ m ∈ l, m.complaint_id = c := by
  simp [idsOf, List.mem_map]

lemma rowsWithId_append (c : Int) (l1 l2 : List Row) :
    rowsWithId c (l1 ++ l2) = rowsWithId c l1 ++ rowsWithId c l2 := by
  simp [rowsWithId, List.filter_append]

lemma rowsWithId_cons (c : Int) (a : Row) (l : List Row) :
    rowsWithId c (a :: l) =
      if a.complaint_id = c then a :: rowsWithId c l else rowsWithId c l := by
  simp only [rowsWithId, List.filter_cons]
  by_cases h : a.complaint_id = c <;> simp [h]

lemma rowsWithId_eq_nil {c : Int} {l : List Row} (h : ∀ m ∈ l, m.complaint_id ≠ c) :
    rowsWithId c l = [] := by
  simp only [rowsWithId, List.filter_eq_nil_iff]
  intro m hm
  simpa using h m hm

lemma mem_of_mem_rowsWithId {c : Int} {l : List Row} {m : Row}
    (h : m ∈ rowsWithId c l) : m ∈ l ∧ m.complaint_id = c := by
  have := List.mem_filter.mp h
  exact ⟨this.1, by simpa using this.2⟩

lemma rowsWithId_single_of_nodup {c : Int} {l : List Row} {m : Row}
    (hnd : (idsOf l).Nodup) (hm : m ∈ l) (hc : m.complaint_id = c) :
    rowsWithId c l = [m] := by
  induction l with
  | nil => simp at hm
  | cons a t ih =>
    rw [idsOf_cons, List.nodup_cons] at hnd
    rcases List.mem_cons.mp hm with h | h
    · subst h
      rw [rowsWithId_cons, if_pos hc]
      have : rowsWithId c t = [] := by
        apply rowsWithId_eq_nil
        intro x hx he
        exact hnd.1 (mem_idsOf.mpr ⟨x, hx, by rw [he, hc]⟩)
      rw [this]
    · have ha : a.complaint_id ≠ c := by
        intro he
        exact hnd.1 (mem_idsOf.mpr ⟨m, h, by rw [hc, he]⟩)
      rw [rowsWithId_cons, if_neg ha]
      exact ih hnd.2 h

lemma rowsWithId_filter_ne {c d : Int} (h : c ≠ d) (rs : List Row) :
    rowsWithId c (rs.filter (fun x => x.complaint_id ≠ d)) = rowsWithId c rs := by
  induction rs with
  | nil => rfl
  | cons a t ih =>
    rw [List.filter_cons]
    by_cases ha : a.complaint_id = d
    · have : (decide (a.complaint_id ≠ d)) = false := by simp [ha]
      rw [this]
      simp only [Bool.false_eq_true, if_false]
      rw [ih, rowsWithId_cons, if_neg (by rw [ha]; exact (Ne.symm h))]
    · have : (decide (a.complaint_id ≠ d)) = true := by simp [ha]
      rw [this]
      simp only [if_true]
      rw [rowsWithId_cons, rowsWithId_cons, ih]

/-! ### `upsertRow` lemmas -/

lemma upsertRow_of_not_mem (main : List Row) (r : Row)
    (h : r.complaint_id ∉ idsOf main) : upsertRow main r = main ++ [r] := by
  unfold upsertRow
  rw [if_neg]
  intro hany
  rw [List.any_eq_true] at hany
  obtain ⟨m, hm, he⟩ := hany
  exact h (mem_idsOf.mpr ⟨m, hm, by simpa using he⟩)

lemma upsertRow_of_mem (main : List Row) (r : Row)
    (h : r.complaint_id ∈ idsOf main) :
    upsertRow main r = main.map (fun m =>
      if m.complaint_id = r.complaint_id then updateNonKey m r else m) := by
  unfold upsertRow
  rw [if_pos]
  rw [List.any_eq_true]
  obtain ⟨m, hm, he⟩ := mem_idsOf.mp h
  exact ⟨m, hm, by simp [he]⟩

lemma idsOf_map_upd (l : List Row) (r : Row) :
    idsOf (l.map (fun m =>
      if m.complaint_id = r.complaint_id then updateNonKey m r else m)) = idsOf l := by
  simp only [idsOf, List.map_map]
  apply List.map_congr_left
  intro m _
  by_cases h : m.complaint_id = r.complaint_id <;>
    simp [Function.comp, h, updateNonKey_complaint_id]

lemma upsertRow_ids (main : List Row) (r : Row) :
    idsOf (upsertRow main r) =
      if r.complaint_id ∈ idsOf main then idsOf main
      else idsOf main ++ [r.complaint_id] := by
  by_cases h : r.complaint_id ∈ idsOf main
  · rw [if_pos h, upsertRow_of_mem main r h, idsOf_map_upd]
  · rw [if_neg h, upsertRow_of_not_mem main r h, idsOf_append]
    rfl

lemma upsertRow_nodup (main : List Row) (r : Row)
    (h : (idsOf main).Nodup) : (idsOf (upsertRow main r)).Nodup := by
  rw [upsertRow_ids]
  by_cases hm : r.complaint_id ∈ idsOf main
  · rw [if_pos hm]
    exact h
  · rw [if_neg hm]
    rw [List.nodup_append]
    refine ⟨h, List.nodup_singleton _, ?_⟩
    intro a ha hb
    rw [List.mem_singleton] at hb
    subst hb
    exact hm ha

lemma rowsWithId_map_upd (c : Int) (l : List Row) (r : Row) :
    rowsWithId c (l.map (fun m =>
      if m.complaint_id = r.complaint_id then updateNonKey m r else m)) =
    (rowsWithId c l).map (fun m =>
      if m.complaint_id = r.complaint_id then updateNonKey m r else m) := by
  induction l with
  | nil => rfl
  | cons a t ih =>
    simp only [List.map_cons]
    have hid : (if a.complaint_id = r.complaint_id then updateNonKey a r else a).complaint_id
        = a.complaint_id := by
      by_cases h : a.complaint_id = r.complaint_id <;> simp [h, updateNonKey_complaint_id]
    rw [rowsWithId_cons, rowsWithId_cons, hid]
    by_cases h : a.complaint_id = c
    · rw [if_pos h, if_pos h, List.map_cons, ih]
    · rw [if_neg h, if_neg h, ih]

lemma upsertRow_rowsWithId_eq (main : List Row) (r : Row)
    (hnd : (idsOf main).Nodup) :
    rowsWithId r.complaint_id (upsertRow main r) = [r] := by
  by_cases h : r.complaint_id ∈ idsOf main
  · rw [upsertRow_of_mem main r h, rowsWithId_map_upd]
    obtain ⟨m0, hm0, hid⟩ := mem_idsOf.mp h
    rw [rowsWithId_single_of_nodup hnd hm0 hid]
    simp only [List.map_cons, List.map_nil, if_pos hid]
    rw [updateNonKey_self m0 r hid]
  · rw [upsertRow_of_not_mem main r h, rowsWithId_append]
    have h1 : rowsWithId r.complaint_id main = [] := by
      apply rowsWithId_eq_nil
      intro m hm he
      exact h (mem_idsOf.mpr ⟨m, hm, he⟩)
    rw [h1, rowsWithId_cons]
    simp [rowsWithId]

lemma upsertRow_rowsWithId_ne (main : List Row) (r : Row) (c : Int)
    (hc : c ≠ r.complaint_id) :
    rowsWithId c (upsertRow main r) = rowsWithId c main := by
  by_cases h : r.complaint_id ∈ idsOf main
  · rw [upsertRow_of_mem main r h, rowsWithId_map_upd]
    have : ∀ m ∈ rowsWithId c main,
        (if m.complaint_id = r.complaint_id then updateNonKey m r else m) = m := by
      intro m hm
      have hmc := (mem_of_mem_rowsWithId hm).2
      rw [if_neg (by rw [hmc]; exact hc)]
    rw [List.map_congr_left this, List.map_id']
  · rw [upsertRow_of_not_mem main r h, rowsWithId_append]
    have : rowsWithId c [r] = [] := by
      apply rowsWithId_eq_nil
      intro m hm
      rw [List.mem_singleton] at hm
      subst hm
      exact fun he => hc he.symm
    rw [this, List.append_nil]

/-! ### `foldl upsertRow` lemmas -/

lemma foldl_upsert_nodup (rs : List Row) :
    ∀ main : List Row, (idsOf main).Nodup →
      (idsOf (rs.foldl upsertRow main)).Nodup := by
  induction rs with
  | nil => exact fun main h => h
  | cons r t ih => exact fun main h => ih _ (upsertRow_nodup main r h)

lemma foldl_upsert_frame (c : Int) (rs : List Row) :
    ∀ main : List Row, (∀ x ∈ rs, x.complaint_id ≠ c) →
      rowsWithId c (rs.foldl upsertRow main) = rowsWithId c main := by
  induction rs with
  | nil => exact fun main _ => rfl
  | cons r t ih =>
    intro main h
    simp only [List.foldl_cons]
    rw [ih _ (fun x hx => h x (List.mem_cons_of_mem _ hx)),
      upsertRow_rowsWithId_ne main r c (Ne.symm (h r (List.mem_cons_self _ _)))]

lemma foldl_upsert_mem (rs : List Row) :
    ∀ main : List Row, (idsOf main).Nodup → (idsOf rs).Nodup →
      ∀ r ∈ rs, rowsWithId r.complaint_id (rs.foldl upsertRow main) = [r] := by
  induction rs with
  | nil => intro main _ _ r hr; simp at hr
  | cons a t ih =>
    intro main hmain hnd r hr
    rw [idsOf_cons, List.nodup_cons] at hnd
    simp only [List.foldl_cons]
    rcases List.mem_cons.mp hr with h | h
    · subst h
      rw [foldl_upsert_frame r.complaint_id t _ ?side]
      · exact upsertRow_rowsWithId_eq main r hmain
      case side =>
        intro x hx he
        apply hnd.1
        rw [← he]
        exact mem_idsOf.mpr ⟨x, hx, rfl⟩
    · exact ih _ (upsertRow_nodup main a hmain) hnd.2 r h

lemma foldl_upsert_ids_extra (rs : List Row) :
    ∀ main : List Row, ∃ extra : List Int,
      idsOf (rs.foldl upsertRow main) = idsOf main ++ extra ∧
      ∀ c ∈ extra, c ∈ idsOf rs ∧ c ∉ idsOf main := by
  induction rs with
  | nil => exact fun main => ⟨[], by simp, by simp⟩
  | cons r t ih =>
    intro main
    obtain ⟨extra, he, hp⟩ := ih (upsertRow main r)
    by_cases h : r.complaint_id ∈ idsOf main
    · refine ⟨extra, ?_, ?_⟩
      · rw [List.foldl_cons, he, upsertRow_ids, if_pos h]
      · intro c hc
        obtain ⟨h1, h2⟩ := hp c hc
        rw [upsertRow_ids, if_pos h] at h2
        exact ⟨by rw [idsOf_cons]; exact List.mem_cons_of_mem _ h1, h2⟩
    · refine ⟨r.complaint_id :: extra, ?_, ?_⟩
      · rw [List.foldl_cons, he, upsertRow_ids, if_neg h, List.append_assoc]
        rfl
      · intro c hc
        rcases List.mem_cons.mp hc with hcr | hce
        · subst hcr
          exact ⟨by rw [idsOf_cons]; exact List.mem_cons_self _ _, h⟩
        · obtain ⟨h1, h2⟩ := hp c hce
          rw [upsertRow_ids, if_neg h] at h2
          exact ⟨by rw [idsOf_cons]; exact List.mem_cons_of_mem _ h1,
            fun hcm => h2 (List.mem_append_left _ hcm)⟩

/-! ### `distinctOn` lemmas -/

lemma distinctOn_subset : ∀ l : List Row, ∀ x ∈ distinctOn l, x ∈ l := by
  intro l
  induction l using distinctOn.induct with
  | case1 => intro x hx; simp [distinctOn] at hx
  | case2 r rs ih =>
    intro x hx
    rw [distinctOn] at hx
    rcases List.mem_cons.mp hx with h | h
    · exact h ▸ List.mem_cons_self _ _
    · exact List.mem_cons_of_mem _ (List.mem_of_mem_filter (ih x h))

lemma distinctOn_nodup : ∀ l : List Row, (idsOf (distinctOn l)).Nodup := by
  intro l
  induction l using distinctOn.induct with
  | case1 => simp [distinctOn, idsOf]
  | case2 r rs ih =>
    rw [distinctOn, idsOf_cons, List.nodup_cons]
    refine ⟨?_, ih⟩
    intro hmem
    obtain ⟨m, hm, he⟩ := mem_idsOf.mp hmem
    have hmf := distinctOn_subset _ m hm
    have := List.of_mem_filter hmf
    simp at this
    exact this he

lemma distinctOn_eq_self : ∀ l : List Row, (idsOf l).Nodup → distinctOn l = l := by
  intro l
  induction l using distinctOn.induct with
  | case1 => intro _; simp [distinctOn]
  | case2 r rs ih =>
    intro hnd
    rw [idsOf_cons, List.nodup_cons] at hnd
    have hfilter : rs.filter (fun x => x.complaint_id ≠ r.complaint_id) = rs := by
      rw [List.filter_eq_self]
      intro m hm
      simp only [decide_eq_true_eq]
      intro he
      exact hnd.1 (mem_idsOf.mpr ⟨m, hm, he⟩)
    have ih2 : distinctOn rs = rs := by
      rw [hfilter] at ih
      exact ih hnd.2
    rw [distinctOn, hfilter, ih2]

lemma distinctOn_rowsWithId_single :
    ∀ l : List Row, ∀ (c : Int) (r0 : Row), rowsWithId c l = [r0] →
      rowsWithId c (distinctOn l) = [r0] := by
  intro l
  induction l using distinctOn.induct with
  | case1 => intro c r0 h; simpa [distinctOn] using h
  | case2 r rs ih =>
    intro c r0 h
    rw [distinctOn]
    by_cases hr : r.complaint_id = c
    · rw [rowsWithId_cons, if_pos hr] at h
      injection h with h1 h2
      subst h1
      have : rowsWithId c (distinctOn (rs.filter (fun x => x.complaint_id ≠ r.complaint_id))) = [] := by
        apply rowsWithId_eq_nil
        intro m hm he
        have hmf := distinctOn_subset _ m hm
        have := List.of_mem_filter hmf
        simp at this
        exact this (he.trans hr.symm)
      rw [rowsWithId_cons, if_pos hr, this]
    · rw [rowsWithId_cons, if_neg hr] at h
      rw [rowsWithId_cons, if_neg hr]
      apply ih
      rw [rowsWithId_filter_ne (fun hce : c = r.complaint_id => hr hce.symm) rs]
      exact h

/-! ### `upsertRows` lemmas -/

lemma upsertRows_nodup (main temp : List Row) (h : (idsOf main).Nodup) :
    (idsOf (upsertRows main temp)).Nodup :=
  foldl_upsert_nodup (distinctOn temp) main h

lemma upsertRows_frame (main temp : List Row) (c : Int) (hc : c ∉ idsOf temp) :
    rowsWithId c (upsertRows main temp) = rowsWithId c main := by
  apply foldl_upsert_frame
  intro x hx he
  exact hc (mem_idsOf.mpr ⟨x, distinctOn_subset _ x hx, he⟩)

/-! ### Claim theorems: upsert reconciliation -/

/-- C2: for a main table (satisfying its primary-key invariant) holding a
row with complaint id 42 and product "A", and a staging table holding
exactly one row with complaint id 42, that one with product "B", the
reconcile statement leaves the main table with exactly the staged row
for id 42: product "B", every other non-key column the staging value,
and no duplicate. -/
theorem upsert_overwrites_product (main temp : List Row) (m0 r0 : Row)
    (hmain_nd : (idsOf main).Nodup)
    (hm0 : m0 ∈ main) (hm0_id : m0.complaint_id = 42)
    (hm0_prod : m0.product = Cell.str "A")
    (htemp : rowsWithId 42 temp = [r0]) (hr0_prod : r0.product = Cell.str "B") :
    rowsWithId 42 (upsertRows main temp) = [r0] ∧
    (∀ m ∈ upsertRows main temp, m.complaint_id = 42 → m.product = Cell.str "B") ∧
    (rowsWithId 42 (upsertRows main temp)).length = 1 := by
  have hdedup : rowsWithId 42 (distinctOn temp) = [r0] :=
    distinctOn_rowsWithId_single temp 42 r0 htemp
  have hr0mem : r0 ∈ distinctOn temp ∧ r0.complaint_id = 42 := by
    apply mem_of_mem_rowsWithId
    rw [hdedup]
    exact List.mem_singleton.mpr rfl
  have hmain : rowsWithId 42 (upsertRows main temp) = [r0] := by
    have := foldl_upsert_mem (distinctOn temp) main hmain_nd
      (distinctOn_nodup temp) r0 hr0mem.1
    rw [hr0mem.2] at this
    exact this
  refine ⟨hmain, ?_, by rw [hmain]; rfl⟩
  intro m hm hid
  have : m ∈ rowsWithId 42 (upsertRows main temp) :=
    List.mem_filter.mpr ⟨hm, by simp [hid]⟩
  rw [hmain, List.mem_singleton] at this
  rw [this]
  exact hr0_prod

/-- Witness for C2 at a concrete one-row main table and staging table. -/
theorem upsert_overwrites_product_witness :
    rowsWithId 42 (upsertRows [mkRow (Cell.str "A") 42] [mkRow (Cell.str "B") 42])
      = [mkRow (Cell.str "B") 42] :=
  (upsert_overwrites_product [mkRow (Cell.str "A") 42] [mkRow (Cell.str "B") 42]
    (mkRow (Cell.str "A") 42) (mkRow (Cell.str "B") 42)
    (by decide) (by decide) (by decide) (by decide) (by decide) (by decide)).1

/-- C10: the reconcile statement leaves every main-table row whose
complaint id does not occur in the staging table unchanged (for each
such id, the main table's row set for that id is untouched); the ids of
the existing main rows are preserved in place, extended only by fresh
staged ids; and the update clause sets exactly the seventeen non-key
columns, never `complaint_id`. -/
theorem upsert_frame_and_keys (main temp : List Row) :
    (∀ c : Int, c ∉ idsOf temp →
      rowsWithId c (upsertRows main temp) = rowsWithId c main) ∧
    (∃ extra : List Int, idsOf (upsertRows main temp) = idsOf main ++ extra ∧
      ∀ c ∈ extra, c ∈ idsOf temp ∧ c ∉ idsOf main) ∧
    (∀ old new : Row,
      (updateNonKey old new).complaint_id = old.complaint_id ∧
      (updateNonKey old new).date_received = new.date_received ∧
      (updateNonKey old new).product = new.product ∧
      (updateNonKey old new).sub_product = new.sub_product ∧
      (updateNonKey old new).issue = new.issue ∧
      (updateNonKey old new).sub_issue = new.sub_issue ∧
      (updateNonKey old new).consumer_complaint_narrative = new.consumer_complaint_narrative ∧
      (updateNonKey old new).company_public_response = new.company_public_response ∧
      (updateNonKey old new).company = new.company ∧
      (updateNonKey old new).state = new.state ∧
      (updateNonKey old new).zip_code = new.zip_code ∧
      (updateNonKey old new).tags = new.tags ∧
      (updateNonKey old new).consumer_consent_provided = new.consumer_consent_provided ∧
      (updateNonKey old new).submitted_via = new.submitted_via ∧
      (updateNonKey old new).date_sent_to_company = new.date_sent_to_company ∧
      (updateNonKey old new).company_response_to_consumer = new.company_response_to_consumer ∧
      (updateNonKey old new).timely_response = new.timely_response ∧
      (updateNonKey old new).consumer_disputed = new.consumer_disputed) := by
  refine ⟨fun c hc => upsertRows_frame main temp c hc, ?_, ?_⟩
  · obtain ⟨extra, he, hp⟩ := foldl_upsert_ids_extra (distinctOn temp) main
    refine ⟨extra, he, ?_⟩
    intro c hc
    obtain ⟨h1, h2⟩ := hp c hc
    obtain ⟨m, hm, hme⟩ := mem_idsOf.mp h1
    exact ⟨mem_idsOf.mpr ⟨m, distinctOn_subset _ m hm, hme⟩, h2⟩
  · intro old new
    exact ⟨rfl, rfl, rfl, rfl, rfl, rfl, rfl, rfl, rfl, rfl, rfl, rfl, rfl, rfl,
      rfl, rfl, rfl, rfl⟩

/-- Witness for C10: a main row whose id is absent from staging is left
unchanged. -/
theorem upsert_frame_and_keys_witness :
    rowsWithId 7 (upsertRows [mkRow (Cell.str "A") 7] [mkRow (Cell.str "B") 42])
      = rowsWithId 7 [mkRow (Cell.str "A") 7] :=
  (upsert_frame_and_keys [mkRow (Cell.str "A") 7] [mkRow (Cell.str "B") 42]).1 7
    (by decide)

/-! ### Orchestrator run lemmas -/

lemma runSteps_append (fault : Nat → Option Err) (xs : List Step) :
    ∀ (i : Nat) (ys : List Step) (s s1 : DBState),
      execOkN fault i xs s = some s1 →
      runSteps fault i (xs ++ ys) s = runSteps fault (i + xs.length) ys s1 := by
  induction xs with
  | nil =>
    intro i ys s s1 h
    simp only [execOkN, Option.some.injEq] at h
    subst h
    simp
  | cons x xs ih =>
    intro i ys s s1 h
    cases hf : fault i with
    | some e => simp [execOkN, hf] at h
    | none =>
      cases he : execStep x s with
      | error e => simp [execOkN, hf, he] at h
      | ok s2 =>
        simp only [execOkN, hf, he] at h
        simp only [List.cons_append, runSteps, hf, he]
        have e1 : i + (x :: xs).length = i + 1 + xs.length := by
          simp only [List.length_cons]
          omega
        rw [e1]
        exact ih (i + 1) ys s2 s1 h

lemma runSteps_fail (fault : Nat → Option Err) (i : Nat) (x : Step)
    (s : DBState) (ys : List Step) (e : Err)
    (h : stepFailure fault i x s = some e) :
    runSteps fault i (x :: ys) s = (s, some e) := by
  cases hf : fault i with
  | some e2 =>
    simp only [stepFailure, hf, Option.some.injEq] at h
    subst h
    simp [runSteps, hf]
  | none =>
    cases he : execStep x s with
    | error e2 =>
      simp only [stepFailure, hf, he, Option.some.injEq] at h
      subst h
      simp [runSteps, hf, he]
    | ok s2 => simp [stepFailure, hf, he] at h

lemma runSteps_ok (fault : Nat → Option Err) (xs : List Step) :
    ∀ (i : Nat) (s s1 : DBState), execOkN fault i xs s = some s1 →
      runSteps fault i xs s = (s1, none) := by
  induction xs with
  | nil =>
    intro i s s1 h
    simp only [execOkN, Option.some.injEq] at h
    subst h
    rfl
  | cons x xs ih =>
    intro i s s1 h
    cases hf : fault i with
    | some e => simp [execOkN, hf] at h
    | none =>
      cases he : execStep x s with
      | error e => simp [execOkN, hf, he] at h
      | ok s2 =>
        simp only [execOkN, hf, he] at h
        simp only [runSteps, hf, he]
        exact ih (i + 1) s2 s1 h

lemma runSteps_last_dropTemp (fault : Nat → Option Err) (xs : List Step) :
    ∀ (i : Nat) (s s2 : DBState),
      runSteps fault i (xs ++ [Step.dropTemp]) s = (s2, none) → s2.temp = none := by
  induction xs with
  | nil =>
    intro i s s2 h
    cases hf : fault i with
    | some e => simp [runSteps, hf] at h
    | none =>
      simp only [List.nil_append, runSteps, hf, execStep] at h
      have h1 : ({ s with temp := none } : DBState) = s2 := congrArg Prod.fst h
      subst h1
      rfl
  | cons x xs ih =>
    intro i s s2 h
    cases hf : fault i with
    | some e => simp [runSteps, hf] at h
    | none =>
      cases he : execStep x s with
      | error e => simp [runSteps, hf, he] at h
      | ok s3 =>
        simp only [List.cons_append, runSteps, hf, he] at h
        exact ih (i + 1) s3 s2 h

/-! ### Claim theorems: orchestration -/

/-- C3: the load orchestrator executes exactly the sequence drop staging,
ensure main, ensure staging, append each batch in file order, upsert,
drop staging; when the first failing step sits after a completed prefix,
the run returns that step's error and the state reached by the prefix:
later steps do not run and completed steps are not rolled back. -/
theorem load_sequence_abort (file : List Row) (bs : Nat)
    (fault : Nat → Option Err) (s0 s1 : DBState)
    (pre : List Step) (x : Step) (post : List Step) (e : Err)
    (hsplit : loadSteps (readChunks bs file) = pre ++ x :: post)
    (hpre : execOkN fault 0 pre s0 = some s1)
    (hfail : stepFailure fault pre.length x s1 = some e) :
    loadSteps (readChunks bs file) =
      [Step.dropTemp, Step.createMain, Step.createTemp]
        ++ (readChunks bs file).map Step.insertBatch
        ++ [Step.upsertStep, Step.dropTemp] ∧
    load_all_data_to_database fault file bs s0 = (s1, some e) := by
  refine ⟨by simp [loadSteps], ?_⟩
  unfold load_all_data_to_database
  rw [hsplit, runSteps_append fault pre 0 (x :: post) s0 s1 hpre]
  have e1 : 0 + pre.length = pre.length := by omega
  rw [e1]
  exact runSteps_fail fault pre.length x s1 post e hfail

/-- Witness for C3: a one-batch load whose upsert step (position 4) hits
an injected storage failure; the staged insert survives, the error
propagates, the final drop does not run. -/
theorem load_sequence_abort_witness :
    loadSteps (readChunks 1 [mkRow (Cell.str "A") 1]) =
      [Step.dropTemp, Step.createMain, Step.createTemp]
        ++ (readChunks 1 [mkRow (Cell.str "A") 1]).map Step.insertBatch
        ++ [Step.upsertStep, Step.dropTemp] ∧
    load_all_data_to_database (fun i => if i = 4 then some "deadlock detected" else none)
      [mkRow (Cell.str "A") 1] 1 ⟨none, none⟩
      = (⟨some [], some [mkRow (Cell.str "A") 1]⟩, some "deadlock detected") :=
  load_sequence_abort [mkRow (Cell.str "A") 1] 1
    (fun i => if i = 4 then some "deadlock detected" else none)
    ⟨none, none⟩ ⟨some [], some [mkRow (Cell.str "A") 1]⟩
    [Step.dropTemp, Step.createMain, Step.createTemp,
      Step.insertBatch [mkRow (Cell.str "A") 1]]
    Step.upsertStep [Step.dropTemp] "deadlock detected"
    (by rw [readChunks_cons 1 (by omega)]
        simp [loadSteps, readChunks_nil])
    (by simp [execOkN, execStep, pkOk, idsOf])
    (by simp [stepFailure])

/-- C5: the reconcile step is atomic.  If the upsert step fails —
injected storage failure or missing relation — the run stops with the
database exactly as before the step (the single SQL statement rolls
back); if it succeeds, the whole merged result is applied at once. -/
theorem upsert_step_atomic (fault : Nat → Option Err) (i : Nat)
    (s : DBState) (rest : List Step) :
    (∀ e : Err, stepFailure fault i Step.upsertStep s = some e →
      runSteps fault i (Step.upsertStep :: rest) s = (s, some e)) ∧
    (stepFailure fault i Step.upsertStep s = none →
      ∃ m t : List Row, s.main = some m ∧ s.temp = some t ∧
        runSteps fault i (Step.upsertStep :: rest) s =
          runSteps fault (i + 1) rest
            { main := some (upsertRows m t), temp := some t }) := by
  constructor
  · intro e h
    exact runSteps_fail fault i Step.upsertStep s rest e h
  · intro h
    cases hf : fault i with
    | some e => simp [stepFailure, hf] at h
    | none =>
      cases hm : s.main with
      | none => simp [stepFailure, hf, execStep, hm] at h
      | some m =>
        cases ht : s.temp with
        | none => simp [stepFailure, hf, execStep, hm, ht] at h
        | some t =>
          refine ⟨m, t, rfl, rfl, ?_⟩
          have he : execStep Step.upsertStep s =
              .ok { main := some (upsertRows m t), temp := some t } := by
            simp only [execStep, hm, ht]
          simp only [runSteps, hf, he]

/-- Witness for C5: a fault injected at the upsert step leaves the
database exactly as it was. -/
theorem upsert_step_atomic_witness :
    runSteps (fun _ => some "connection reset") 0 [Step.upsertStep]
      ⟨some [mkRow (Cell.str "A") 1], some []⟩
      = (⟨some [mkRow (Cell.str "A") 1], some []⟩, some "connection reset") :=
  (upsert_step_atomic (fun _ => some "connection reset") 0
    ⟨some [mkRow (Cell.str "A") 1], some []⟩ []).1 "connection reset" (by simp [stepFailure])

/-- C6: after every successful run of the full load, the staging table
does not exist; the step sequence itself creates it (step 3) and ends by
dropping it. -/
theorem staging_dropped_after_success (fault : Nat → Option Err)
    (file : List Row) (bs : Nat) (s0 s1 : DBState)
    (h : load_all_data_to_database fault file bs s0 = (s1, none)) :
    s1.temp = none ∧ Step.createTemp ∈ loadSteps (readChunks bs file) := by
  constructor
  · unfold load_all_data_to_database at h
    have hsteps : loadSteps (readChunks bs file) =
        ([Step.dropTemp, Step.createMain, Step.createTemp]
          ++ (readChunks bs file).map Step.insertBatch ++ [Step.upsertStep])
          ++ [Step.dropTemp] := by
      simp [loadSteps]
    rw [hsteps] at h
    exact runSteps_last_dropTemp fault _ 0 s0 s1 h
  · simp [loadSteps]

/-! ### Successful-run lemmas -/

lemma execOkN_append (fault : Nat → Option Err) (xs : List Step) :
    ∀ (i : Nat) (ys : List Step) (s s1 : DBState),
      execOkN fault i xs s = some s1 →
      execOkN fault i (xs ++ ys) s = execOkN fault (i + xs.length) ys s1 := by
  induction xs with
  | nil =>
    intro i ys s s1 h
    simp only [execOkN, Option.some.injEq] at h
    subst h
    simp
  | cons x xs ih =>
    intro i ys s s1 h
    cases hf : fault i with
    | some e => simp [execOkN, hf] at h
    | none =>
      cases he : execStep x s with
      | error e => simp [execOkN, hf, he] at h
      | ok s2 =>
        simp only [execOkN, hf, he] at h
        simp only [List.cons_append, execOkN, hf, he]
        have e1 : i + (x :: xs).length = i + 1 + xs.length := by
          simp only [List.length_cons]
          omega
        rw [e1]
        exact ih (i + 1) ys s2 s1 h

lemma pkOk_of_nodup {t b : List Row} (h : (idsOf (t ++ b)).Nodup) : pkOk t b := by
  rw [idsOf_append, List.nodup_append] at h
  exact ⟨h.2.1, fun c hcb hct => h.2.2 hct hcb⟩

lemma insert_steps_ok (batches : List (List Row)) :
    ∀ (i : Nat) (t : List Row) (m : Option (List Row)),
      (idsOf (t ++ batches.flatten)).Nodup →
      execOkN noFault i (batches.map Step.insertBatch) ⟨m, some t⟩ =
        some ⟨m, some (t ++ batches.flatten)⟩ := by
  induction batches with
  | nil =>
    intro i t m h
    simp [execOkN]
  | cons b bs ih =>
    intro i t m h
    have hassoc : t ++ (b :: bs).flatten = (t ++ b) ++ bs.flatten := by
      simp [List.flatten_cons]
    rw [hassoc] at h ⊢
    have hpk : pkOk t b := by
      apply pkOk_of_nodup
      have h2 := h
      rw [idsOf_append, List.nodup_append] at h2
      exact h2.1
    have hstep : execStep (Step.insertBatch b) ⟨m, some t⟩ =
        .ok ⟨m, some (t ++ b)⟩ := by
      simp [execStep, hpk]
    simp only [List.map_cons, execOkN, noFault, hstep]
    exact ih (i + 1) (t ++ b) m h

lemma load_all_noFault_ok (file : List Row) (bs : Nat) (s0 : DBState)
    (hb : 1 ≤ bs) (hnd : (idsOf file).Nodup) :
    load_all_data_to_database noFault file bs s0 =
      (⟨some (upsertRows (s0.main.getD []) file), none⟩, none) := by
  unfold load_all_data_to_database
  apply runSteps_ok
  have hflat : (readChunks bs file).flatten = file := readChunks_flatten bs file hb
  have h1 : ∀ i : Nat,
      execOkN noFault i [Step.dropTemp, Step.createMain, Step.createTemp] s0 =
        some ⟨some (s0.main.getD []), some []⟩ := by
    intro i
    simp [execOkN, noFault, execStep]
  have h2 : ∀ i : Nat,
      execOkN noFault i ((readChunks bs file).map Step.insertBatch)
        ⟨some (s0.main.getD []), some []⟩ =
        some ⟨some (s0.main.getD []), some file⟩ := by
    intro i
    have hh : (idsOf ([] ++ (readChunks bs file).flatten)).Nodup := by
      simpa [hflat] using hnd
    have h := insert_steps_ok (readChunks bs file) i [] (some (s0.main.getD [])) hh
    simpa [hflat] using h
  have h3 : ∀ i : Nat,
      execOkN noFault i [Step.upsertStep, Step.dropTemp]
        ⟨some (s0.main.getD []), some file⟩ =
        some ⟨some (upsertRows (s0.main.getD []) file), none⟩ := by
    intro i
    simp [execOkN, noFault, execStep]
  have hsteps : loadSteps (readChunks bs file) =
      [Step.dropTemp, Step.createMain, Step.createTemp]
        ++ ((readChunks bs file).map Step.insertBatch
            ++ [Step.upsertStep, Step.dropTemp]) := by
    simp [loadSteps]
  rw [hsteps, execOkN_append noFault _ 0 _ s0 _ (h1 0),
    execOkN_append noFault _ _ _ _ _ (h2 _)]
  exact h3 _

/-! ### Claim theorems: idempotence and cleanup -/

/-- C1: for a source file whose rows carry pairwise-distinct complaint
ids, two fault-free runs of the full load both succeed and leave the
main table with, for each file row's complaint id, exactly the row
staged for that id during the second run. -/
theorem load_twice_idempotent (file : List Row) (bs : Nat) (s0 : DBState)
    (hb : 1 ≤ bs) (hnd : (idsOf file).Nodup)
    (hm : (idsOf (s0.main.getD [])).Nodup) :
    (load_all_data_to_database noFault file bs s0).2 = none ∧
    (load_all_data_to_database noFault file bs
      (load_all_data_to_database noFault file bs s0).1).2 = none ∧
    ∀ r ∈ file,
      rowsWithId r.complaint_id
        (((load_all_data_to_database noFault file bs
          (load_all_data_to_database noFault file bs s0).1).1).main.getD []) = [r] := by
  have h1 := load_all_noFault_ok file bs s0 hb hnd
  have h2 := load_all_noFault_ok file bs
    ⟨some (upsertRows (s0.main.getD []) file), none⟩ hb hnd
  rw [h1]
  simp only at h2 ⊢
  rw [h2]
  refine ⟨by simp, by simp, ?_⟩
  intro r hr
  simp only [Option.getD_some]
  have hM1 : (idsOf (upsertRows (s0.main.getD []) file)).Nodup :=
    upsertRows_nodup _ file hm
  have hded : distinctOn file = file := distinctOn_eq_self file hnd
  have hmem : r ∈ distinctOn file := by rw [hded]; exact hr
  have := foldl_upsert_mem (distinctOn file)
    (upsertRows (s0.main.getD []) file) hM1 (distinctOn_nodup file) r hmem
  exact this

/-- Witness for C1 at a concrete one-row file. -/
theorem load_twice_idempotent_witness :
    rowsWithId 5
      (((load_all_data_to_database noFault [mkRow (Cell.str "B") 5] 1000
        (load_all_data_to_database noFault [mkRow (Cell.str "B") 5] 1000
          ⟨none, none⟩).1).1).main.getD []) = [mkRow (Cell.str "B") 5] :=
  (load_twice_idempotent [mkRow (Cell.str "B") 5] 1000 ⟨none, none⟩
    (by omega) (by simp [idsOf]) (by simp [idsOf])).2.2
    (mkRow (Cell.str "B") 5) (List.mem_singleton.mpr rfl)

/-- Counterexample to C1 as stated for arbitrary files: with a source
file holding two rows with the same complaint id, the staging append
violates the staging table's primary key, both runs abort, and the main
table ends with zero rows (not one) for that id. -/
theorem load_twice_dup_id_counterexample :
    (rowsWithId 1
      (((load_all_data_to_database noFault
          [mkRow (Cell.str "A") 1, mkRow (Cell.str "B") 1] 1000
          (load_all_data_to_database noFault
            [mkRow (Cell.str "A") 1, mkRow (Cell.str "B") 1] 1000
            ⟨none, none⟩).1).1).main.getD [])).length ≠ 1 := by
  have h1 : readChunks 1000 [mkRow (Cell.str "A") 1, mkRow (Cell.str "B") 1]
      = [[mkRow (Cell.str "A") 1, mkRow (Cell.str "B") 1]] := by
    rw [readChunks_cons 1000 (by omega)]
    simp [readChunks_nil]
  unfold load_all_data_to_database
  rw [h1]
  decide

/-- Witness for C6: a concrete successful one-row load ends with no
staging table. -/
theorem staging_dropped_after_success_witness :
    (⟨some (upsertRows ((⟨none, none⟩ : DBState).main.getD [])
        [mkRow (Cell.str "A") 1]), none⟩ : DBState).temp = none ∧
    Step.createTemp ∈ loadSteps (readChunks 1 [mkRow (Cell.str "A") 1]) :=
  staging_dropped_after_success noFault [mkRow (Cell.str "A") 1] 1 ⟨none, none⟩
    ⟨some (upsertRows ((⟨none, none⟩ : DBState).main.getD [])
      [mkRow (Cell.str "A") 1]), none⟩
    (load_all_noFault_ok [mkRow (Cell.str "A") 1] 1 ⟨none, none⟩
      (by omega) (by simp [idsOf]))

/-! ### Claim theorems: downloader -/

/-- C9: when the expected file already exists at the destination,
`download_dataset` skips the fetch/extraction path, leaves the files
untouched, and returns the file path; consequently any second call after
a successful call (with any backend) performs no fetch. -/
theorem download_dataset_skip (fetch fetch2 : FS → FS) (dir name : String)
    (fs : FS) :
    (joinPath dir name ∈ fs.files →
      (download_dataset fetch dir name fs).1.files = fs.files ∧
      (download_dataset fetch dir name fs).2.1 = .ok (joinPath dir name) ∧
      (download_dataset fetch dir name fs).2.2 = false) ∧
    (∀ p : String, (download_dataset fetch dir name fs).2.1 = .ok p →
      (download_dataset fetch2 dir name
        (download_dataset fetch dir name fs).1).2.2 = false) := by
  have hfiles : ∀ g : FS,
      (if dir ∈ g.dirs then g else { g with dirs := dir :: g.dirs }).files
        = g.files := by
    intro g
    split <;> rfl
  constructor
  · intro h
    unfold download_dataset
    rw [if_pos (by rw [hfiles fs]; exact h)]
    exact ⟨hfiles fs, rfl, rfl⟩
  · intro p hp
    have hkey : joinPath dir name ∈ (download_dataset fetch dir name fs).1.files := by
      unfold download_dataset at hp ⊢
      by_cases h1 : joinPath dir name ∈
          (if dir ∈ fs.dirs then fs else { fs with dirs := dir :: fs.dirs }).files
      · rw [if_pos h1] at hp ⊢
        exact h1
      · rw [if_neg h1] at hp ⊢
        by_cases h2 : joinPath dir name ∈
            (fetch (if dir ∈ fs.dirs then fs
              else { fs with dirs := dir :: fs.dirs })).files
        · rw [if_pos h2] at hp ⊢
          exact h2
        · rw [if_neg h2] at hp
          simp at hp
    unfold download_dataset
    rw [if_pos (by rw [hfiles]; exact hkey)]

/-- Witness for C9: with the file already present, the call returns its
path without fetching, and a repeat call also fetches nothing. -/
theorem download_dataset_skip_witness :
    ((download_dataset (fun g => g) "data" "complaints.csv"
        ⟨["data/complaints.csv"], ["data"]⟩).1.files = ["data/complaints.csv"] ∧
      (download_dataset (fun g => g) "data" "complaints.csv"
        ⟨["data/complaints.csv"], ["data"]⟩).2.1 = .ok "data/complaints.csv" ∧
      (download_dataset (fun g => g) "data" "complaints.csv"
        ⟨["data/complaints.csv"], ["data"]⟩).2.2 = false) ∧
    (download_dataset (fun g => g) "data" "complaints.csv"
      (download_dataset (fun g => g) "data" "complaints.csv"
        ⟨["data/complaints.csv"], ["data"]⟩).1).2.2 = false := by
  have h := download_dataset_skip (fun g => g) (fun g => g) "data" "complaints.csv"
    ⟨["data/complaints.csv"], ["data"]⟩
  have h1 := h.1 (by decide)
  refine ⟨⟨h1.1, h1.2.1, h1.2.2⟩, ?_⟩
  exact h.2 "data/complaints.csv" h1.2.1

end ETL
